import Mathlib

/-!
Verification of the templating engine in `src/templater/templater.py`
(classes `TextReader`, `Token`, `Lexer`, `Templater`).

Python strings are modelled as `List Char`; the mutable `TextReader`
state is the pair of the (immutable) text and the integer index, passed
explicitly.  `None` results become `Option.none`.  The two `while` loops
(`Lexer.lex` and the scanning loop of `Lexer.parse_variable_token`) are
modelled with an explicit fuel argument returning `none` on fuel
exhaustion; the development proves that the fuel supplied by `Lexer.lex`
always suffices, which is exactly the termination of the Python loops.

`Char.isAlpha` (ASCII letters) stands in for Python's `str.isalpha`
(Unicode letters); the two agree on every input considered here, and no
general theorem below depends on which characters count as letters.
-/

/-- `TextReader.current`: `self.text[self.idx]` when the text is non-empty,
`None` otherwise.  (For an in-range index on a non-empty text this is
`some`; Python would raise on an out-of-range index, a state the lexer
never reaches, where this model returns `none`.) -/
def TextReader.current (s : List Char) (i : Nat) : Option Char :=
  if s.isEmpty then none else s[i]?

/-- `TextReader.peek`: `None` when `idx + 1 >= length`, else `self.text[self.idx + 1]`. -/
def TextReader.peek (s : List Char) (i : Nat) : Option Char :=
  if s.length ≤ i + 1 then none else s[i+1]?

/-- `TextReader.next`: if `peek` has a character, increment the index and
return the new `current`; otherwise return `None` with the index unchanged.
The pair is (returned character, new index). -/
def TextReader.next (s : List Char) (i : Nat) : Option Char × Nat :=
  if TextReader.peek s i ≠ none then (TextReader.current s (i + 1), i + 1)
  else (none, i)

/-- `TextReader.is_last`: `self.idx == (self.length - 1)`, with the
subtraction over the integers exactly as in Python (so it is `false` for
the empty text, where `length - 1 = -1`). -/
def TextReader.is_last (s : List Char) (i : Nat) : Bool :=
  (i : Int) == (s.length : Int) - 1

/-- `TokenType` from templater.py. -/
inductive TokenType where
  | NORMAL
  | VARIABLE
deriving DecidableEq, BEq

/-- `Token`: Python sets the `variable` attribute only for `VARIABLE`
tokens (default `""`); here the field is always present and is `[]` for
every `NORMAL` token the code builds. -/
structure Token where
  text : List Char
  type : TokenType
  variable_ : List Char
deriving DecidableEq

/-- `Token.__eq__`: compares `text` and `type` only (the `variable`
attribute is not compared). -/
def Token.eq (a b : Token) : Bool :=
  a.text == b.text && a.type == b.type

/-- The scanning `while` loop of `Lexer.parse_variable_token`
(`while self.reader.peek() != "}"` and the closing-brace handling after
it), with fuel.  `text` and `varAcc` are the `text` and `variable`
accumulators. -/
def parse_variable_loop : Nat → List Char → Nat → List Char → List Char → Option (Token × Nat)
  | 0, _, _, _, _ => none
  | fuel + 1, s, i, text, varAcc =>
    if TextReader.peek s i = some '\x7d' then
      -- after the loop: text += next() (first closing brace)
      match TextReader.next s i with
      | (m1, i1) =>
        let text1 := text ++ m1.toList
        if TextReader.peek s i1 ≠ some '\x7d' then
          some (⟨text1, TokenType.NORMAL, []⟩, i1)
        else
          -- text += next() (second closing brace); then one more next()
          match TextReader.next s i1 with
          | (m2, i2) =>
            let text2 := text1 ++ m2.toList
            some (⟨text2, TokenType.VARIABLE, varAcc⟩, (TextReader.next s i2).2)
    else
      match TextReader.next s i with
      | (none, i') => some (⟨text, TokenType.NORMAL, []⟩, i')
      | (some c, i') =>
        if c.isAlpha || c = '.' || c = '_' then
          parse_variable_loop fuel s i' (text ++ [c]) (varAcc ++ [c])
        else if c = ' ' then
          parse_variable_loop fuel s i' (text ++ [c]) varAcc
        else
          some (⟨text, TokenType.NORMAL, []⟩, i')

/-- `Lexer.parse_variable_token`.  The guard
`if current != "{" or peek != "{"` returns a `NORMAL` token holding the
current character.  Otherwise the second `{` is consumed
(`text += self.reader.next()`) and the scanning loop runs.  The fuel
`s.length + 1` is proved sufficient below. -/
def parse_variable_token (s : List Char) (i : Nat) : Option (Token × Nat) :=
  let text := (TextReader.current s i).toList
  if TextReader.current s i ≠ some '\x7b' ∨ TextReader.peek s i ≠ some '\x7b' then
    some (⟨text, TokenType.NORMAL, []⟩, i)
  else
    match TextReader.next s i with
    | (m, i1) => parse_variable_loop (s.length + 1) s i1 (text ++ m.toList) []

/-- The final flush of `Lexer.lex`: `if text: tokens.append(Token(text, NORMAL))`. -/
def flush (text : List Char) (tokens : List Token) : List Token :=
  if text.isEmpty then tokens else tokens ++ [⟨text, TokenType.NORMAL, []⟩]

/-- The `while True` loop of `Lexer.lex`, with fuel.  Inside the
brace-pair branch the `break` right after it (`if self.reader.is_last()`)
makes the common bottom `is_last` check unreachable with a different
outcome, so the branch decides directly between breaking (which runs the
final flush) and looping. -/
def lex_loop : Nat → List Char → Nat → List Char → List Token → Option (List Token)
  | 0, _, _, _, _ => none
  | fuel + 1, s, i, text, tokens =>
    if TextReader.current s i = some '\x7b' ∧ TextReader.peek s i = some '\x7b' then
      match parse_variable_token s i with
      | none => none
      | some (token, i1) =>
        if token.type = TokenType.NORMAL then
          let text1 := text ++ token.text
          let i2 := (TextReader.next s i1).2
          if TextReader.is_last s i2 then some (flush text1 tokens)
          else lex_loop fuel s i2 text1 tokens
        else
          let tokens1 := flush text tokens ++ [token]
          if TextReader.is_last s i1 then some (flush [] tokens1)
          else lex_loop fuel s i1 [] tokens1
    else if TextReader.current s i = none then
      some (flush text tokens)
    else
      -- text += current(); next(); then the bottom end-of-input check:
      -- if is_last(): if current() != None: text += current(); break
      let text1 := text ++ (TextReader.current s i).toList
      let i1 := (TextReader.next s i).2
      if TextReader.is_last s i1 then
        some (flush (text1 ++ (TextReader.current s i1).toList) tokens)
      else lex_loop fuel s i1 text1 tokens

/-- `Lexer.lex`: run the loop from index 0 with empty accumulators. -/
def Lexer.lex (s : List Char) : Option (List Token) :=
  lex_loop (s.length + 1) s 0 [] []

/-- Concatenation of the `text` fields of a token sequence, in order. -/
def concatTexts (tokens : List Token) : List Char :=
  (tokens.map Token.text).flatten

/-- Dictionary lookup `token.variable in self.variables.keys()` /
`self.vars[token.variable]`, modelled on an association list
(Python dict keys are unique, so first-match lookup agrees).  Values are
modelled as strings, standing for `str(value)`. -/
def lookupVar (vars : List (List Char × List Char)) (k : List Char) : Option (List Char) :=
  match vars with
  | [] => none
  | (k', v) :: rest => if k' = k then some v else lookupVar rest k

/-- The per-token fragment appended by the loop body of `Templater.render`. -/
def renderToken (vars : List (List Char × List Char)) (token : Token) : List Char :=
  match token.type with
  | TokenType.NORMAL => token.text
  | TokenType.VARIABLE =>
    match lookupVar vars token.variable_ with
    | some v => v
    | none => "\x60MISSING VARIABLE ".data ++ token.variable_ ++ "\x60".data

/-- `Templater.render`: fold over the tokens appending each fragment. -/
def Templater.render (tokens : List Token) (vars : List (List Char × List Char)) : List Char :=
  tokens.foldl (fun s token => s ++ renderToken vars token) []

/-- Modelled from the spec: `cli.py` line 95 calls
`Templater(text, self.theme, default=self.defaults)`, but the `Templater`
class in `templater.py` accepts no `default` parameter — the
fallback-capable renderer is missing from the sources.  Per spec §4.3:
look `name` up in the primary mapping; if absent, in the fallback
mapping; if present in either append the value, else append the missing
sentinel. -/
def renderTokenWithDefault (vars dflt : List (List Char × List Char))
    (token : Token) : List Char :=
  match token.type with
  | TokenType.NORMAL => token.text
  | TokenType.VARIABLE =>
    match lookupVar vars token.variable_ with
    | some v => v
    | none =>
      match lookupVar dflt token.variable_ with
      | some v => v
      | none => "\x60MISSING VARIABLE ".data ++ token.variable_ ++ "\x60".data

/-- Modelled from the spec: the render of the fallback-capable Templater
(see `renderTokenWithDefault`). -/
def Templater.renderWithDefault (tokens : List Token)
    (vars dflt : List (List Char × List Char)) : List Char :=
  tokens.foldl (fun s token => s ++ renderTokenWithDefault vars dflt token) []

/-! ### Basic facts about the text cursor -/

theorem TextReader.current_eq_some {s : List Char} {i : Nat} {c : Char}
    (h : TextReader.current s i = some c) : i < s.length ∧ s[i]? = some c := by
  unfold TextReader.current at h
  split at h
  · exact absurd h (by simp)
  · refine ⟨?_, h⟩
    by_contra hlt
    rw [List.getElem?_eq_none (by omega)] at h
    exact absurd h (by simp)

theorem TextReader.current_of_lt {s : List Char} {i : Nat} (h : i < s.length) :
    TextReader.current s i = s[i]? := by
  unfold TextReader.current
  split
  · rename_i he
    rw [List.isEmpty_iff] at he
    subst he
    simp at h
  · rfl

theorem TextReader.peek_eq_some {s : List Char} {i : Nat} {c : Char}
    (h : TextReader.peek s i = some c) : i + 1 < s.length ∧ s[i+1]? = some c := by
  unfold TextReader.peek at h
  split at h
  · exact absurd h (by simp)
  · rename_i hle
    exact ⟨by omega, h⟩

theorem TextReader.peek_eq_none_iff {s : List Char} {i : Nat} :
    TextReader.peek s i = none ↔ s.length ≤ i + 1 := by
  unfold TextReader.peek
  split
  · rename_i hle
    simp [hle]
  · rename_i hle
    simp only [List.getElem?_eq_getElem (by omega : i + 1 < s.length)]
    simp
    omega

theorem TextReader.next_eq_some {s : List Char} {i i' : Nat} {c : Char}
    (h : TextReader.next s i = (some c, i')) :
    i' = i + 1 ∧ i + 1 < s.length ∧ s[i+1]? = some c := by
  unfold TextReader.next at h
  split at h
  · rw [Prod.mk.injEq] at h
    obtain ⟨hc, hi⟩ := h
    obtain ⟨hlt, hg⟩ := TextReader.current_eq_some hc
    exact ⟨hi.symm, hlt, hg⟩
  · rw [Prod.mk.injEq] at h
    exact absurd h.1 (by simp)

theorem TextReader.next_eq_none {s : List Char} {i i' : Nat}
    (h : TextReader.next s i = (none, i')) : i' = i ∧ s.length ≤ i + 1 := by
  unfold TextReader.next at h
  split at h
  · rename_i hp
    rw [Ne, TextReader.peek_eq_none_iff] at hp
    have hlt : i + 1 < s.length := by omega
    rw [TextReader.current_of_lt hlt, List.getElem?_eq_getElem hlt] at h
    rw [Prod.mk.injEq] at h
    exact absurd h.1 (by simp)
  · rename_i hp
    rw [not_not, TextReader.peek_eq_none_iff] at hp
    rw [Prod.mk.injEq] at h
    exact ⟨h.2.symm, hp⟩

theorem TextReader.next_snd_bounds {s : List Char} {i : Nat} :
    i ≤ (TextReader.next s i).2 ∧ (TextReader.next s i).2 ≤ i + 1 ∧
    (i < s.length → (TextReader.next s i).2 < s.length) := by
  unfold TextReader.next
  split
  · rename_i hp
    rw [Ne, TextReader.peek_eq_none_iff] at hp
    exact ⟨by omega, by omega, fun _ => by simp; omega⟩
  · exact ⟨Nat.le_refl i, by omega, fun h => h⟩

theorem TextReader.is_last_iff {s : List Char} {i : Nat} :
    TextReader.is_last s i = true ↔ i + 1 = s.length := by
  unfold TextReader.is_last
  simp only [beq_iff_eq]
  omega

theorem TextReader.is_last_eq_false {s : List Char} {i : Nat} :
    TextReader.is_last s i = false ↔ i + 1 ≠ s.length := by
  rw [← Bool.not_eq_true, not_iff_not]
  exact TextReader.is_last_iff

/-! ### Claim theorems: cursor, token equality, concrete lexer runs -/

/-- C9: Text Cursor contract and invariant: over a non-empty input the
index satisfies `0 ≤ index < length` initially (index 0) and after every
advance; when `peek` yields a character, `advance` (`next`) increments
the index by one and returns the new current character (that very
character); when `peek` yields none, it leaves the index unchanged and
returns the no-character sentinel. -/
theorem C9_reader_contract (s : List Char) (i : Nat)
    (hs : s ≠ []) (hi : i < s.length) :
    0 < s.length ∧ (TextReader.next s i).2 < s.length ∧
    (∀ c, TextReader.peek s i = some c →
      TextReader.next s i = (some c, i + 1) ∧ TextReader.current s (i + 1) = some c) ∧
    (TextReader.peek s i = none → TextReader.next s i = (none, i)) := by
  refine ⟨List.length_pos.mpr hs, TextReader.next_snd_bounds.2.2 hi, ?_, ?_⟩
  · intro c hp
    obtain ⟨hlt, hg⟩ := TextReader.peek_eq_some hp
    have hcur : TextReader.current s (i + 1) = some c := by
      rw [TextReader.current_of_lt hlt]
      exact hg
    refine ⟨?_, hcur⟩
    unfold TextReader.next
    rw [if_pos (by rw [hp]; simp), hcur]
  · intro hp
    unfold TextReader.next
    rw [if_neg (by rw [hp]; simp)]

theorem C9_reader_contract_witness :
    0 < ("ab".data).length ∧ (TextReader.next "ab".data 0).2 < ("ab".data).length ∧
    (∀ c, TextReader.peek "ab".data 0 = some c →
      TextReader.next "ab".data 0 = (some c, 0 + 1) ∧ TextReader.current "ab".data (0 + 1) = some c) ∧
    (TextReader.peek "ab".data 0 = none → TextReader.next "ab".data 0 = (none, 0)) :=
  C9_reader_contract "ab".data 0 (by decide) (by decide)

instance : LawfulBEq TokenType := by
  constructor
  · intro a b h
    cases a <;> cases b <;> first | rfl | exact absurd h (by decide)
  · intro a
    cases a <;> decide

/-- C3 counterexample: two VariableRef tokens with equal `text` but
different names compare equal under `Token.__eq__`, contradicting the
claim's "two VariableRef tokens with equal text but different names are
not equal". -/
theorem C3_name_ignored_cex :
    Token.eq ⟨"\x7b\x7b x \x7d\x7d".data, TokenType.VARIABLE, "x".data⟩
             ⟨"\x7b\x7b x \x7d\x7d".data, TokenType.VARIABLE, "y".data⟩ = true := by decide

/-- C3 amended: two tokens are equal iff they have the same variant and
the same text; the name field of VariableRef tokens is not compared. -/
theorem C3_token_eq_iff (a b : Token) :
    Token.eq a b = true ↔ a.text = b.text ∧ a.type = b.type := by
  simp [Token.eq]

theorem lex_singleton (c : Char) :
    Lexer.lex [c] = some [⟨[c, c], TokenType.NORMAL, []⟩] := by
  simp [Lexer.lex, lex_loop, TextReader.current, TextReader.peek, TextReader.next,
        TextReader.is_last, flush]

/-- C10: every input of length exactly one lexes to a single Literal
token whose text is the character twice: the scan appends the character,
`next` fails leaving the index at 0, and the end-of-input branch appends
the same character again before breaking. -/
theorem C10_single_char_doubled (c : Char) :
    Lexer.lex [c] = some [⟨[c, c], TokenType.NORMAL, []⟩] :=
  lex_singleton c

/-- C1: losslessness fails on the code.  `Lex("a")` returns a single
Literal token with text `"aa"`, so the concatenation of token texts is
`"aa"`, not the input `"a"`. -/
theorem C1_lossless_violated :
    Lexer.lex "a".data = some [⟨"aa".data, TokenType.NORMAL, []⟩] ∧
    concatTexts [⟨"aa".data, TokenType.NORMAL, []⟩] ≠ "a".data := by decide

/-- C4: `Lex("\x7b\x7b  xx,y \x7d\x7d")` does not return a Literal equal
to the whole input: the comma that aborts the variable candidate is
skipped by the `next()` after the failed parse and never re-appended, so
the single Literal token's text is `"\x7b\x7b  xxy \x7d\x7d"` (no comma). -/
theorem C4_comma_marker_eval :
    Lexer.lex "\x7b\x7b  xx,y \x7d\x7d".data =
      some [⟨"\x7b\x7b  xxy \x7d\x7d".data, TokenType.NORMAL, []⟩] := by decide

/-- C5: `Lex("\x7b\x7b some variable \x7d\x7d")` does not return a
Literal token: spaces inside the marker are tolerated (appended to the
span but not the name), so the whole input becomes one VariableRef token
with name `"somevariable"`. -/
theorem C5_space_identifier_eval :
    Lexer.lex "\x7b\x7b some variable \x7d\x7d".data =
      some [⟨"\x7b\x7b some variable \x7d\x7d".data, TokenType.VARIABLE,
             "somevariable".data⟩] := by decide

/-- C6 counterexample: in `Lex("\x7b\x7bx\x7d\x7da")` the cursor reaches
the trailing `a` (which no variable-candidate parse consumed), yet the
early exit after the successful candidate breaks without appending it:
the emitted tokens are just the VariableRef, and `a` appears nowhere. -/
theorem C6_trailing_dropped_cex :
    Lexer.lex "\x7b\x7bx\x7d\x7da".data =
      some [⟨"\x7b\x7bx\x7d\x7d".data, TokenType.VARIABLE, "x".data⟩] ∧
    'a' ∉ concatTexts [⟨"\x7b\x7bx\x7d\x7d".data, TokenType.VARIABLE, "x".data⟩] := by decide

/-! ### Renderer -/

theorem render_foldl (ts : List Token) (vars : List (List Char × List Char))
    (acc : List Char) :
    ts.foldl (fun s token => s ++ renderToken vars token) acc =
      acc ++ Templater.render ts vars := by
  induction ts generalizing acc with
  | nil => simp [Templater.render]
  | cons t ts ih =>
    simp only [Templater.render, List.foldl_cons, List.nil_append] at *
    rw [ih, ih (renderToken vars t), List.append_assoc]

theorem render_append (a b : List Token) (vars : List (List Char × List Char)) :
    Templater.render (a ++ b) vars =
      Templater.render a vars ++ Templater.render b vars := by
  unfold Templater.render
  rw [List.foldl_append]
  rw [show List.foldl (fun s token => s ++ renderToken vars token) [] a =
        Templater.render a vars from rfl]
  exact render_foldl b vars (Templater.render a vars)

theorem render_single (tok : Token) (vars : List (List Char × List Char)) :
    Templater.render [tok] vars = renderToken vars tok := by
  simp [Templater.render]

/-- C7: for a VariableRef token whose name the mapping does not contain,
the renderer appends (at that token's position) exactly the sentinel
backtick, "MISSING VARIABLE ", the identifier, backtick; it never raises
(the render function is total by construction). -/
theorem C7_missing_sentinel (pre suf : List Token) (vars : List (List Char × List Char))
    (tok : Token) (htype : tok.type = TokenType.VARIABLE)
    (hmiss : lookupVar vars tok.variable_ = none) :
    Templater.render (pre ++ tok :: suf) vars =
      Templater.render pre vars ++
        ("\x60MISSING VARIABLE ".data ++ tok.variable_ ++ "\x60".data) ++
      Templater.render suf vars := by
  have hfrag : renderToken vars tok =
      "\x60MISSING VARIABLE ".data ++ tok.variable_ ++ "\x60".data := by
    unfold renderToken
    rw [htype, hmiss]
  rw [show pre ++ tok :: suf = pre ++ [tok] ++ suf by simp]
  rw [render_append, render_append, render_single, hfrag, List.append_assoc]

theorem C7_missing_sentinel_witness :
    Templater.render ([] ++ ⟨"\x7b\x7b z \x7d\x7d".data, TokenType.VARIABLE, "z".data⟩ :: []) [] =
      Templater.render [] [] ++
        ("\x60MISSING VARIABLE ".data ++ "z".data ++ "\x60".data) ++
      Templater.render [] [] :=
  C7_missing_sentinel [] [] [] ⟨"\x7b\x7b z \x7d\x7d".data, TokenType.VARIABLE, "z".data⟩
    rfl rfl

theorem renderWithDefault_foldl (ts : List Token)
    (vars dflt : List (List Char × List Char)) (acc : List Char) :
    ts.foldl (fun s token => s ++ renderTokenWithDefault vars dflt token) acc =
      acc ++ Templater.renderWithDefault ts vars dflt := by
  induction ts generalizing acc with
  | nil => simp [Templater.renderWithDefault]
  | cons t ts ih =>
    simp only [Templater.renderWithDefault, List.foldl_cons, List.nil_append] at *
    rw [ih, ih (renderTokenWithDefault vars dflt t), List.append_assoc]

theorem renderWithDefault_append (a b : List Token)
    (vars dflt : List (List Char × List Char)) :
    Templater.renderWithDefault (a ++ b) vars dflt =
      Templater.renderWithDefault a vars dflt ++ Templater.renderWithDefault b vars dflt := by
  unfold Templater.renderWithDefault
  rw [List.foldl_append]
  rw [show List.foldl (fun s token => s ++ renderTokenWithDefault vars dflt token) [] a =
        Templater.renderWithDefault a vars dflt from rfl]
  exact renderWithDefault_foldl b vars dflt (Templater.renderWithDefault a vars dflt)

theorem renderWithDefault_single (tok : Token) (vars dflt : List (List Char × List Char)) :
    Templater.renderWithDefault [tok] vars dflt = renderTokenWithDefault vars dflt tok := by
  simp [Templater.renderWithDefault]

/-- C2: for a VariableRef token whose name is absent from the primary
mapping and present in the fallback mapping, the (spec-modelled) render
with fallback appends exactly the fallback's value at that token's
position — not the missing-variable sentinel. -/
theorem C2_fallback_lookup (pre suf : List Token)
    (vars dflt : List (List Char × List Char)) (tok : Token) (v : List Char)
    (htype : tok.type = TokenType.VARIABLE)
    (hmiss : lookupVar vars tok.variable_ = none)
    (hfall : lookupVar dflt tok.variable_ = some v) :
    Templater.renderWithDefault (pre ++ tok :: suf) vars dflt =
      Templater.renderWithDefault pre vars dflt ++ v ++
      Templater.renderWithDefault suf vars dflt := by
  have hfrag : renderTokenWithDefault vars dflt tok = v := by
    unfold renderTokenWithDefault
    rw [htype, hmiss, hfall]
  rw [show pre ++ tok :: suf = pre ++ [tok] ++ suf by simp]
  rw [renderWithDefault_append, renderWithDefault_append, renderWithDefault_single,
      hfrag, List.append_assoc]

theorem C2_fallback_lookup_witness :
    Templater.renderWithDefault
        ([] ++ ⟨"\x7b\x7b x \x7d\x7d".data, TokenType.VARIABLE, "x".data⟩ :: [])
        [] [("x".data, "1".data)] =
      Templater.renderWithDefault [] [] [("x".data, "1".data)] ++ "1".data ++
      Templater.renderWithDefault [] [] [("x".data, "1".data)] :=
  C2_fallback_lookup [] [] [] [("x".data, "1".data)]
    ⟨"\x7b\x7b x \x7d\x7d".data, TokenType.VARIABLE, "x".data⟩ "1".data
    rfl rfl (by decide)

/-! ### More cursor lemmas, used by the loop proofs -/

theorem TextReader.next_pair_bounds {s : List Char} {i i' : Nat} {m : Option Char}
    (h : TextReader.next s i = (m, i')) :
    i ≤ i' ∧ i' ≤ i + 1 ∧ (i < s.length → i' < s.length) := by
  have hb := TextReader.next_snd_bounds (s := s) (i := i)
  rw [h] at hb
  exact hb

theorem TextReader.current_ne_none {s : List Char} {i : Nat}
    (h : TextReader.current s i ≠ none) : i < s.length := by
  unfold TextReader.current at h
  split at h
  · exact absurd rfl h
  · by_contra hge
    rw [List.getElem?_eq_none (by omega)] at h
    exact h rfl

theorem TextReader.next_of_peek_none {s : List Char} {i : Nat}
    (h : TextReader.peek s i = none) : TextReader.next s i = (none, i) := by
  unfold TextReader.next
  rw [if_neg (by rw [h]; simp)]

theorem TextReader.next_snd_of_lt {s : List Char} {i : Nat} (h : i + 1 < s.length) :
    (TextReader.next s i).2 = i + 1 := by
  unfold TextReader.next
  rw [if_pos]
  · unfold TextReader.peek
    rw [if_neg (by omega)]
    simp [List.getElem?_eq_getElem h]

/-! ### The fuel supplied to the scanning loops always suffices
(this is the termination argument for the two Python `while` loops) -/


theorem parse_variable_loop_isSome :
    ∀ (fuel : Nat) (s : List Char) (i : Nat) (text varAcc : List Char),
      s.length - i < fuel →
      (parse_variable_loop fuel s i text varAcc).isSome = true := by
  intro fuel
  induction fuel with
  | zero =>
    intro s i text varAcc h
    omega
  | succ fuel ih =>
    intro s i text varAcc h
    simp only [parse_variable_loop]
    split
    · -- exit arm: peek s i = some closing brace; both outcomes are some
      split
      · simp
      · simp
    · -- loop body arm
      split
      · simp
      · rename_i c i' heq
        obtain ⟨hi', hlt, -⟩ := TextReader.next_eq_some heq
        subst hi'
        split
        · exact ih s (i + 1) _ _ (by omega)
        · split
          · exact ih s (i + 1) _ _ (by omega)
          · simp

theorem parse_variable_loop_bounds :
    ∀ (fuel : Nat) (s : List Char) (i : Nat) (text varAcc : List Char)
      (tok : Token) (j : Nat),
      parse_variable_loop fuel s i text varAcc = some (tok, j) →
      i ≤ j ∧ (i < s.length → j < s.length) := by
  intro fuel
  induction fuel with
  | zero =>
    intro s i text varAcc tok j h
    simp [parse_variable_loop] at h
  | succ fuel ih =>
    intro s i text varAcc tok j h
    simp only [parse_variable_loop] at h
    split at h
    · -- exit arm
      split at h
      · rw [Option.some.injEq, Prod.mk.injEq] at h
        obtain ⟨-, hj⟩ := h
        subst hj
        have hb1 := TextReader.next_snd_bounds (s := s) (i := i)
        exact ⟨hb1.1, hb1.2.2⟩
      · rw [Option.some.injEq, Prod.mk.injEq] at h
        obtain ⟨-, hj⟩ := h
        subst hj
        have hb1 := TextReader.next_snd_bounds (s := s) (i := i)
        have hb2 := TextReader.next_snd_bounds (s := s) (i := (TextReader.next s i).2)
        have hb3 := TextReader.next_snd_bounds
          (s := s) (i := (TextReader.next s (TextReader.next s i).2).2)
        exact ⟨by omega, fun hi => hb3.2.2 (hb2.2.2 (hb1.2.2 hi))⟩
    · -- loop body arm
      split at h
      · rename_i i' heq
        have hb := TextReader.next_pair_bounds heq
        rw [Option.some.injEq, Prod.mk.injEq] at h
        obtain ⟨-, hj⟩ := h
        subst hj
        exact ⟨hb.1, hb.2.2⟩
      · rename_i c i' heq
        obtain ⟨hi', hlt, -⟩ := TextReader.next_eq_some heq
        subst hi'
        split at h
        · have hr := ih s (i + 1) _ _ tok j h
          exact ⟨by omega, fun _ => hr.2 hlt⟩
        · split at h
          · have hr := ih s (i + 1) _ _ tok j h
            exact ⟨by omega, fun _ => hr.2 hlt⟩
          · rw [Option.some.injEq, Prod.mk.injEq] at h
            obtain ⟨-, hj⟩ := h
            subst hj
            exact ⟨by omega, fun _ => hlt⟩

theorem parse_variable_token_isSome (s : List Char) (i : Nat) :
    (parse_variable_token s i).isSome = true := by
  unfold parse_variable_token
  split
  · simp
  · exact parse_variable_loop_isSome (s.length + 1) s _ _ _ (by omega)

theorem parse_variable_token_bounds {s : List Char} {i : Nat} {tok : Token} {j : Nat}
    (hcur : TextReader.current s i = some '\x7b')
    (hpeek : TextReader.peek s i = some '\x7b')
    (h : parse_variable_token s i = some (tok, j)) :
    i < j ∧ j < s.length := by
  unfold parse_variable_token at h
  rw [if_neg (by simp [hcur, hpeek])] at h
  have hp := TextReader.peek_eq_some hpeek
  split at h
  rename_i m i1 heq
  have hi1 : i1 = i + 1 := by
    have h2 := TextReader.next_snd_of_lt hp.1
    rw [heq] at h2
    exact h2
  subst hi1
  have hb := parse_variable_loop_bounds (s.length + 1) s (i + 1) _ _ tok j h
  exact ⟨by have := hb.1; omega, hb.2 hp.1⟩

theorem lex_loop_isSome :
    ∀ (fuel : Nat) (s : List Char) (i : Nat) (text : List Char) (tokens : List Token),
      s.length - i < fuel → (i < s.length ∨ s.length = 0) →
      (lex_loop fuel s i text tokens).isSome = true := by
  intro fuel
  induction fuel with
  | zero =>
    intro s i text tokens h _
    omega
  | succ fuel ih =>
    intro s i text tokens h hinv
    simp only [lex_loop]
    split
    · -- brace-pair branch
      rename_i hg
      obtain ⟨hcur, hpeek⟩ := hg
      have hi : i < s.length := (TextReader.current_eq_some hcur).1
      split
      · -- parse_variable_token returned none: impossible
        rename_i heq
        have hsome := parse_variable_token_isSome s i
        rw [heq] at hsome
        exact absurd hsome (by simp)
      · rename_i token i1 heq
        obtain ⟨hij, hjl⟩ := parse_variable_token_bounds hcur hpeek heq
        split
        · -- NORMAL: reader advanced once more
          have hb := TextReader.next_snd_bounds (s := s) (i := i1)
          split
          · simp
          · exact ih s _ _ _ (by omega) (Or.inl (hb.2.2 hjl))
        · split
          · simp
          · exact ih s _ _ _ (by omega) (Or.inl hjl)
    · -- not a brace pair: the current-none check, then the literal branch
      split
      · simp
      · rename_i hg hcn
        have hi : i < s.length := TextReader.current_ne_none hcn
        by_cases hpl : s.length ≤ i + 1
        · -- at the final index: next fails, is_last holds, the loop breaks
          have hil : i + 1 = s.length := by omega
          rw [TextReader.next_of_peek_none (TextReader.peek_eq_none_iff.mpr hpl)]
          rw [if_pos (TextReader.is_last_iff.mpr hil)]
          simp
        · have hlt : i + 1 < s.length := by omega
          rw [TextReader.next_snd_of_lt hlt]
          split
          · simp
          · exact ih s _ _ _ (by omega) (Or.inl hlt)

/-- C8: `Lex` is total: for every input string the lexing loop terminates
(the fuel `length + 1` always suffices, which is the termination of the
Python `while True` loop) and returns a token sequence; the empty input
yields the empty sequence. -/
theorem C8_lex_total :
    (∀ s : List Char, (Lexer.lex s).isSome = true) ∧ Lexer.lex [] = some [] := by
  constructor
  · intro s
    unfold Lexer.lex
    exact lex_loop_isSome (s.length + 1) s 0 [] [] (by omega) (by omega)
  · decide

/-! ### Inputs without an opening brace never enter the candidate branch -/

theorem lex_loop_no_brace :
    ∀ (fuel : Nat) (s : List Char) (i : Nat) (text : List Char) (tokens : List Token),
      s.length - i < fuel → i + 2 ≤ s.length → '\x7b' ∉ s.drop i →
      lex_loop fuel s i text tokens =
        some (tokens ++ [⟨text ++ s.drop i, TokenType.NORMAL, []⟩]) := by
  intro fuel
  induction fuel with
  | zero =>
    intro s i text tokens h _ _
    omega
  | succ fuel ih =>
    intro s i text tokens hfuel hlen hnb
    have hi : i < s.length := by omega
    have hdrop : s.drop i = s[i] :: s.drop (i + 1) := List.drop_eq_getElem_cons hi
    have hmem : s[i] ∈ s.drop i := by
      rw [hdrop]
      exact List.mem_cons_self _ _
    have hne : s[i] ≠ '\x7b' := fun he => hnb (he ▸ hmem)
    have hcur : TextReader.current s i = some s[i] := by
      rw [TextReader.current_of_lt hi, List.getElem?_eq_getElem hi]
    simp only [lex_loop]
    rw [if_neg (fun hg => hne (by
      have h1 := hg.1
      rw [hcur] at h1
      exact Option.some.inj h1))]
    rw [if_neg (by rw [hcur]; simp)]
    have hlt1 : i + 1 < s.length := by omega
    rw [TextReader.next_snd_of_lt hlt1, hcur]
    by_cases hend : i + 2 = s.length
    · rw [if_pos (TextReader.is_last_iff.mpr (by omega))]
      have hcur1 : TextReader.current s (i + 1) = some s[i+1] := by
        rw [TextReader.current_of_lt hlt1, List.getElem?_eq_getElem hlt1]
      rw [hcur1]
      have hdrop1 : s.drop (i + 1) = s[i+1] :: s.drop (i + 2) :=
        List.drop_eq_getElem_cons hlt1
      have hdrop2 : s.drop (i + 2) = [] := List.drop_eq_nil_of_le (by omega)
      rw [flush, if_neg (by simp)]
      rw [hdrop, hdrop1, hdrop2]
      simp
    · rw [if_neg (by simp only [TextReader.is_last_iff]; omega)]
      have hnb1 : '\x7b' ∉ s.drop (i + 1) := by
        intro hm
        exact hnb (by rw [hdrop]; exact List.mem_cons_of_mem _ hm)
      rw [ih s (i + 1) (text ++ (some s[i]).toList) tokens (by omega) (by omega) hnb1]
      rw [hdrop]
      simp

/-- C6 counterpart that holds: when the scan never enters the
variable-candidate branch — in particular for any input containing no
opening brace — the final character is appended to the pending buffer by
the bottom end-of-input check and appears in the emitted token sequence. -/
theorem C6_trailing_kept_when_no_brace (s : List Char) (c : Char)
    (hs : '\x7b' ∉ s) (hc : c ≠ '\x7b') :
    ∃ ts, Lexer.lex (s ++ [c]) = some ts ∧ c ∈ concatTexts ts := by
  cases s with
  | nil =>
    refine ⟨[⟨[c, c], TokenType.NORMAL, []⟩], ?_, ?_⟩
    · simpa using lex_singleton c
    · simp [concatTexts]
  | cons a s' =>
    refine ⟨[⟨(a :: s') ++ [c], TokenType.NORMAL, []⟩], ?_, ?_⟩
    · unfold Lexer.lex
      have hnb : '\x7b' ∉ (a :: s') ++ [c] := by
        intro hm
        rcases List.mem_append.mp hm with hm1 | hm1
        · exact hs hm1
        · simp at hm1
          exact hc hm1.symm
      have := lex_loop_no_brace (((a :: s') ++ [c]).length + 1) ((a :: s') ++ [c]) 0 [] []
        (by omega) (by simp) (by simpa using hnb)
      simpa using this
    · simp [concatTexts]

theorem C6_trailing_kept_when_no_brace_witness :
    ∃ ts, Lexer.lex ("ab".data ++ ['c']) = some ts ∧ 'c' ∈ concatTexts ts :=
  C6_trailing_kept_when_no_brace "ab".data 'c' (by decide) (by decide)
